import Mathlib

/-
Verification of the Global Superstore dashboard pipeline (src/app.py):
a shallow embedding of the load / clean / filter / aggregate pipeline,
with theorems checking the stated properties of each stage.

Numeric columns (Sales, Profit, Discount, Postal Code) are embedded as
rationals; dates as explicit year/month/day records, with parse failure
an explicit `none`/null.
-/

namespace Superstore

/-- A calendar date as the cleaning step produces it. -/
structure Date where
  year : Nat
  month : Nat
  day : Nat
deriving DecidableEq, Repr

/-- The absolute calendar-month index of a date: grouping key of the
monthly time series (`freq='M'` bins by calendar month). -/
def Date.monthIdx (d : Date) : Nat := d.year * 12 + (d.month - 1)

/-- One row of the cleaned dataset, seen through the columns the dashboard
reads by name (src/app.py sections 4-14). -/
structure Row where
  region : String
  category : String
  subCategory : String
  state : String
  customerName : String
  productName : String
  orderID : String
  orderDate : Option Date
  sales : ℚ
  profit : ℚ
  discount : ℚ
deriving DecidableEq, Repr

/-- The sidebar filter selection (src/app.py:58-64): three multiselects plus
the drill-down state kept in `st.session_state.selected_state`. -/
structure Selection where
  regions : List String
  categories : List String
  subCategories : List String
  drilldownState : Option String
deriving DecidableEq, Repr

/-- The filtered dataset (src/app.py:67-69): rows whose Region, Category and
Sub-Category each lie in the corresponding selected list.  Note that
`st.session_state.selected_state`, initialized at src/app.py:63-64, is never
read here (or anywhere else in the revision): `sel.drilldownState` does not
appear in the predicate. -/
def filtered_df (df : List Row) (sel : Selection) : List Row :=
  df.filter fun r =>
    decide (r.region ∈ sel.regions ∧ r.category ∈ sel.categories ∧
      r.subCategory ∈ sel.subCategories)

/-- KPI `total_sales = filtered_df['Sales'].sum()` (src/app.py:75). -/
def total_sales (df : List Row) : ℚ := (df.map Row.sales).sum

/-- KPI `total_profit = filtered_df['Profit'].sum()` (src/app.py:76). -/
def total_profit (df : List Row) : ℚ := (df.map Row.profit).sum

/-- KPI `total_orders = filtered_df['Order ID'].nunique()` (src/app.py:77):
the number of distinct Order ID values. -/
def total_orders (df : List Row) : Nat := ((df.map Row.orderID).dedup).length

/-- KPI `profit_margin` (src/app.py:78): guarded division, 0 when total
sales is 0. -/
def profit_margin (df : List Row) : ℚ :=
  if total_sales df ≠ 0 then total_profit df / total_sales df * 100 else 0

/-- Insert `a` before the first element `b` of `l` with `le a b` true. -/
def insertSorted (le : α → α → Bool) (a : α) : List α → List α
  | [] => [a]
  | b :: l => if le a b then a :: b :: l else b :: insertSorted le a l

/-- Insertion sort by a boolean comparator, used to model the orderings
pandas applies (sorted group keys; `sort_values`). -/
def sortBy (le : α → α → Bool) : List α → List α
  | [] => []
  | a :: l => insertSorted le a (sortBy le l)

/-- String order used for pandas' sorted group keys. -/
def strLe (a b : String) : Bool := !(decide (b < a))

/-- `df.groupby(key)[val].sum()`: one entry per distinct key value, in
ascending key order (pandas sorts group keys by default), holding the sum of
`val` over the rows with that key. -/
def groupSumBy (key : Row → String) (val : Row → ℚ) (df : List Row) :
    List (String × ℚ) :=
  (sortBy strLe ((df.map key).dedup)).map fun k =>
    (k, ((df.filter fun r => decide (key r = k)).map val).sum)

/-- Descending order on summed values, for `sort_values(ascending=False)`. -/
def descBySnd (a b : String × ℚ) : Bool := decide (b.2 ≤ a.2)

/-- `top_customers` (src/app.py:90): group by Customer Name, sum Sales, sort
descending, take the first 5. -/
def top_customers (df : List Row) : List (String × ℚ) :=
  (sortBy descBySnd (groupSumBy Row.customerName Row.sales df)).take 5

/-- `top_products` (src/app.py:116): group by Product Name, sum Sales, sort
descending, take the first 5. -/
def top_products (df : List Row) : List (String × ℚ) :=
  (sortBy descBySnd (groupSumBy Row.productName Row.sales df)).take 5

/-- `sales_region` (src/app.py:164): group by Region, sum Sales. -/
def sales_region (df : List Row) : List (String × ℚ) :=
  groupSumBy Row.region Row.sales df

/-- `profit_category` (src/app.py:188): group by Category, sum Profit. -/
def profit_category (df : List Row) : List (String × ℚ) :=
  groupSumBy Row.category Row.profit df

/-- `sales_state` (src/app.py:287): group by State, sum Sales. -/
def sales_state (df : List Row) : List (String × ℚ) :=
  groupSumBy Row.state Row.sales df

/-- The calendar months (as `Date.monthIdx`) of the rows whose Order Date is
non-null; a time `Grouper` drops rows whose key is missing (`NaT`). -/
def orderMonths (df : List Row) : List Nat :=
  df.filterMap fun r => r.orderDate.map Date.monthIdx

/-- Sales summed over the rows whose Order Date falls in month `m`. -/
def monthSales (df : List Row) (m : Nat) : ℚ :=
  ((df.filter fun r => decide (r.orderDate.map Date.monthIdx = some m)).map
    Row.sales).sum

/-- `sales_time` (src/app.py:142):
`filtered_df.groupby(pd.Grouper(key='Order Date', freq='M'))['Sales'].sum()`.
A `Grouper` with a time frequency bins like `resample`: the result holds one
point for EVERY calendar month from the earliest to the latest non-null Order
Date, each with the (possibly zero) sum of Sales in that month; rows with a
null Order Date are dropped. -/
def sales_time (df : List Row) : List (Nat × ℚ) :=
  match orderMonths df with
  | [] => []
  | m :: ms =>
    let lo := ms.foldl min m
    let hi := ms.foldl max m
    (List.range (hi + 1 - lo)).map fun i => (lo + i, monthSales df (lo + i))

/-- The intervals `pd.cut` builds from consecutive bin edges, each paired
with its label: lower edge, upper edge, label. -/
def pdCutBins : List ℚ → List String → List ((ℚ × ℚ) × String)
  | lo :: rest, lab :: labs =>
    match rest with
    | hi :: _ => ((lo, hi), lab) :: pdCutBins rest labs
    | [] => []
  | _, _ => []

/-- The label of the first interval `(lo, hi]` containing `x`. -/
def pdCutFind : List ((ℚ × ℚ) × String) → ℚ → Option String
  | [], _ => none
  | ((lo, hi), lab) :: bins, x =>
    if lo < x ∧ x ≤ hi then some lab else pdCutFind bins x

/-- `pd.cut(x, bins, labels)` with the default `right=True` and
`include_lowest=False`: the label of the interval `(lo, hi]` that contains
`x`; `none` (pandas `NaN`) when `x` lies in no interval. -/
def pdCut (edges : List ℚ) (labels : List String) (x : ℚ) : Option String :=
  pdCutFind (pdCutBins edges labels) x

/-- The bin edges of src/app.py:217. -/
def discountBinEdges : List ℚ := [0, 1/10, 2/10, 3/10, 4/10, 1]

/-- The bin labels of src/app.py:218. -/
def discountBinLabels : List String :=
  ["0-10%", "10-20%", "20-30%", "30-40%", "40%+"]

/-- The 'Discount Bin' value `pd.cut` assigns to a Discount
(src/app.py:215-219). -/
def discountBin (x : ℚ) : Option String :=
  pdCut discountBinEdges discountBinLabels x

/-- Minimum of a list of rationals, `none` when empty (pandas `min`). -/
def listMin : List ℚ → Option ℚ
  | [] => none
  | a :: t => some (t.foldl min a)

/-- Maximum of a list of rationals, `none` when empty (pandas `max`). -/
def listMax : List ℚ → Option ℚ
  | [] => none
  | a :: t => some (t.foldl max a)

/-- Mean of a list of rationals, `none` when empty (pandas `mean` of an
empty group is `NaN`). -/
def listMean (l : List ℚ) : Option ℚ :=
  if l.isEmpty then none else some (l.sum / (l.length : ℚ))

/-- Median as pandas computes it: middle of the sorted list, or the average
of the two middle elements; `none` when empty. -/
def listMedian (l : List ℚ) : Option ℚ :=
  let s := sortBy (fun a b => decide (a ≤ b)) l
  if s.isEmpty then none
  else if s.length % 2 = 1 then some (s.getD (s.length / 2) 0)
  else some ((s.getD (s.length / 2 - 1) 0 + s.getD (s.length / 2) 0) / 2)

/-- Sample variance (pandas `std` uses `ddof=1`; we record the variance, the
square of `Std_Dev`, to stay inside ℚ); `none` when fewer than two values,
where pandas yields `NaN`. -/
def listVarSample (l : List ℚ) : Option ℚ :=
  if l.length ≤ 1 then none
  else
    let m := l.sum / (l.length : ℚ)
    some ((l.map fun x => (x - m) * (x - m)).sum / ((l.length : ℚ) - 1))

/-- One row of the summary-statistics table (src/app.py:262-269). -/
structure BinStats where
  bin : String
  count : Nat
  mean : Option ℚ
  median : Option ℚ
  varSample : Option ℚ
  min : Option ℚ
  max : Option ℚ
deriving DecidableEq, Repr

/-- `summary_stats` (src/app.py:262-269):
`filtered_df.groupby("Discount Bin")["Profit"].agg(...)`.  'Discount Bin' is
a categorical column, and pandas `groupby` keeps every category by default
(`observed=False`): the table has one row per bin label, in label order, even
for labels no row falls into. -/
def summary_stats (df : List Row) : List BinStats :=
  discountBinLabels.map fun lab =>
    let ps := (df.filter fun r => decide (discountBin r.discount = some lab)).map
      Row.profit
    { bin := lab, count := ps.length, mean := listMean ps,
      median := listMedian ps, varSample := listVarSample ps,
      min := listMin ps, max := listMax ps }

/-- A cell of the raw tabular dataset, before the typed `Row` view: a
string, a number, a parsed date, or a missing value (pandas `NaN`/`NaT`). -/
inductive Value
  | str : String → Value
  | num : ℚ → Value
  | date : Date → Value
  | null
deriving DecidableEq, Repr

/-- A raw dataframe: a header of column names and rows of cells aligned
with the header positionally. -/
structure Frame where
  cols : List String
  rows : List (List Value)
deriving DecidableEq, Repr

/-- The column-name literals src/app.py indexes the dataframe with. -/
def postalCol : String := "Postal Code"

/-- Column name of the order date (src/app.py:48). -/
def orderDateCol : String := "Order Date"

/-- Column name of the ship date (src/app.py:48). -/
def shipDateCol : String := "Ship Date"

/-- Column name of the discount (src/app.py:213). -/
def discountCol : String := "Discount"

/-- Column name of the profit (src/app.py:213). -/
def profitCol : String := "Profit"

/-- Name of the derived bin column (src/app.py:215). -/
def discountBinCol : String := "Discount Bin"

/-- The cell of `row` under column `c`, `null` when the column is absent. -/
def getCell (cols : List String) (row : List Value) (c : String) : Value :=
  if c ∈ cols then row.getD (cols.indexOf c) Value.null else Value.null

/-- Rewrite the cell at position `i` of a row through `g`. -/
def setCol (i : Nat) (g : Value → Value) (row : List Value) : List Value :=
  row.set i (g (row.getD i Value.null))

/-- `if c in df.columns: df[c] = df[c].map(g)`: apply `g` down one column,
a no-op when the column is absent (missing-column tolerance). -/
def mapCol (f : Frame) (c : String) (g : Value → Value) : Frame :=
  if c ∈ f.cols then
    { f with rows := f.rows.map (setCol (f.cols.indexOf c) g) }
  else f

/-- `fillna(0)` on one cell (src/app.py:46): a missing value becomes the
number 0, any other value is kept. -/
def fillnaZero : Value → Value
  | .null => .num 0
  | v => v

/-- Day-first parse of a `day-month-year` (or `day/month/year`) numeric
string, as `pd.to_datetime(..., dayfirst=True)` reads the dataset's dates;
`none` when the text is not such a date. -/
def parseDayfirst (s : String) : Option Date :=
  let parts := if s.contains ('/') then s.splitOn ("/") else s.splitOn ("-")
  match parts with
  | [ds, ms, ys] =>
    match ds.toNat?, ms.toNat?, ys.toNat? with
    | some d, some m, some y =>
      if 1 ≤ d ∧ d ≤ 31 ∧ 1 ≤ m ∧ m ≤ 12 then some ⟨y, m, d⟩ else none
    | _, _, _ => none
  | _ => none

/-- `pd.to_datetime(cell, dayfirst=True, errors='coerce')` on one cell
(src/app.py:50): a parsed date stays a date, a parseable string becomes a
date, and anything unparseable coerces to null — never an error. -/
def toDatetimeDayfirst : Value → Value
  | .date d => .date d
  | .str s =>
    match parseDayfirst s with
    | some d => .date d
    | none => .null
  | _ => .null

/-- Worker of `dropDuplicates`, carrying the values already kept. -/
def dropDupAux [DecidableEq α] (seen : List α) : List α → List α
  | [] => []
  | a :: l =>
    if a ∈ seen then dropDupAux seen l else a :: dropDupAux (a :: seen) l

/-- `df.drop_duplicates()` (src/app.py:52): remove every row equal to an
earlier row across all columns, keeping the first occurrence. -/
def dropDuplicates [DecidableEq α] (l : List α) : List α := dropDupAux [] l

/-- Cleaning step 1 (src/app.py:45-46): fill missing postal codes with 0,
skipped when the column is absent. -/
def cleanStep1 (f : Frame) : Frame := mapCol f postalCol fillnaZero

/-- Cleaning step 2 (src/app.py:48-50): re-parse the two date columns
day-first, coercing failures to null; each skipped when its column is
absent. -/
def cleanStep2 (f : Frame) : Frame :=
  mapCol (mapCol (cleanStep1 f) orderDateCol toDatetimeDayfirst) shipDateCol
    toDatetimeDayfirst

/-- The cleaning block (src/app.py:45-52): postal fill, date parses, then
`drop_duplicates`. -/
def clean (f : Frame) : Frame :=
  { cleanStep2 f with rows := dropDuplicates (cleanStep2 f).rows }

/-- What loading a file yields: `none` models a `read_csv`/`read_excel`
exception. -/
structure FileInput where
  name : String
  parsed : Option Frame
deriving DecidableEq, Repr

/-- The outcome of the loading blocks: either the script halts
(`st.stop()` after a warning or error — nothing below runs), or a dataframe
is in hand together with the message describing its source. -/
inductive LoadResult
  | stopped : String → LoadResult
  | loaded : Frame → String → LoadResult
deriving DecidableEq, Repr

/-- The loading blocks (src/app.py:13-40), in the source's order: the
default path is checked FIRST, and when it does not exist the script warns
and stops at line 24 — before the upload widget at line 29 is ever created;
only when the default loaded does an uploaded file (when present) replace
it. -/
def load (defaultFile : Option FileInput) (uploadedFile : Option FileInput) :
    LoadResult :=
  match defaultFile with
  | none =>
    .stopped ("Default dataset not found! Please upload a CSV or Excel file.")
  | some d =>
    match d.parsed with
    | none => .stopped ("Error loading default dataset")
    | some ddf =>
      match uploadedFile with
      | none => .loaded ddf ("default")
      | some u =>
        match u.parsed with
        | none => .stopped ("Error loading uploaded dataset")
        | some udf => .loaded udf u.name

/-- The 'Discount Bin' cell derived from a Discount cell
(src/app.py:215-219): the `pd.cut` label of a numeric discount, null for a
discount outside every bin or a non-numeric cell. -/
def binValue : Value → Value
  | .num q =>
    match discountBin q with
    | some lab => .str lab
    | none => .null
  | _ => .null

/-- src/app.py:213-219: when both the Discount and the Profit column exist,
a derived 'Discount Bin' column is assigned onto `filtered_df` itself;
otherwise the frame is untouched. -/
def addDiscountBin (f : Frame) : Frame :=
  if discountCol ∈ f.cols ∧ profitCol ∈ f.cols then
    { cols := f.cols ++ [discountBinCol],
      rows := f.rows.map fun r => r ++ [binValue (getCell f.cols r discountCol)] }
  else f

/-- src/app.py:393: `filtered_df.to_csv(index=False)` serializes whatever
columns the frame has at that point — after the conditional 'Discount Bin'
assignment.  We record the header and the data rows of the CSV. -/
def downloadCsv (f : Frame) : List String × List (List Value) :=
  ((addDiscountBin f).cols, (addDiscountBin f).rows)

theorem perm_insertSorted (le : α → α → Bool) (a : α) (l : List α) :
    (insertSorted le a l).Perm (a :: l) := by
  induction l with
  | nil => exact List.Perm.refl _
  | cons b t ih =>
    unfold insertSorted
    by_cases h : le a b = true
    · simp [h]
    · simp only [h, if_false]
      exact (ih.cons b).trans (List.Perm.swap a b t)

theorem perm_sortBy (le : α → α → Bool) (l : List α) : (sortBy le l).Perm l := by
  induction l with
  | nil => exact List.Perm.refl _
  | cons a t ih =>
    unfold sortBy
    exact (perm_insertSorted le a (sortBy le t)).trans (ih.cons a)

theorem sum_map_ite_mem [DecidableEq κ] (a : κ) (c : ℚ) (F : κ → ℚ) :
    ∀ ks : List κ, ks.Nodup → a ∈ ks →
      (ks.map fun k => if a = k then c + F k else F k).sum = c + (ks.map F).sum := by
  intro ks
  induction ks with
  | nil => intro _ h; simp at h
  | cons k t ih =>
    intro hnd hmem
    have hk : k ∉ t := (List.nodup_cons.mp hnd).1
    have ht : t.Nodup := (List.nodup_cons.mp hnd).2
    by_cases hak : a = k
    · subst hak
      have htt : (t.map fun x => if a = x then c + F x else F x) = t.map F := by
        apply List.map_congr_left
        intro x hx
        have : a ≠ x := fun h => hk (h ▸ hx)
        simp [this]
      simp only [List.map_cons, List.sum_cons, eq_self_iff_true, if_true, htt]
      ring
    · have hat : a ∈ t := by
        rcases List.mem_cons.mp hmem with h | h
        · exact absurd h hak
        · exact h
      simp only [List.map_cons, List.sum_cons, if_neg hak, ih ht hat]
      ring

theorem sum_fiberSums [DecidableEq κ] (key : α → κ) (val : α → ℚ) :
    ∀ (df : List α) (ks : List κ), ks.Nodup → (∀ r ∈ df, key r ∈ ks) →
      (ks.map fun k => ((df.filter fun r => decide (key r = k)).map val).sum).sum
        = (df.map val).sum := by
  intro df
  induction df with
  | nil =>
    intro ks _ _
    have : (ks.map fun _ => (0 : ℚ)).sum = 0 := by
      induction ks with
      | nil => simp
      | cons k t ih2 => simp [ih2]
    simp [this]
  | cons r t ih =>
    intro ks hnd hcov
    have hmem : key r ∈ ks := hcov r (List.mem_cons_self r t)
    have hstep :
        (ks.map fun k => ((List.filter (fun x => decide (key x = k)) (r :: t)).map val).sum)
          = ks.map fun k =>
            if key r = k
            then val r + ((List.filter (fun x => decide (key x = k)) t).map val).sum
            else ((List.filter (fun x => decide (key x = k)) t).map val).sum := by
      apply List.map_congr_left
      intro k _
      by_cases h : key r = k
      · simp [List.filter_cons, h]
      · simp [List.filter_cons, h]
    rw [hstep, sum_map_ite_mem (key r) (val r) _ ks hnd hmem,
      ih ks hnd fun x hx => hcov x (List.mem_cons_of_mem r hx)]
    simp

theorem groupSumBy_snd_sum (key : Row → String) (val : Row → ℚ) (df : List Row) :
    ((groupSumBy key val df).map Prod.snd).sum = (df.map val).sum := by
  unfold groupSumBy
  rw [List.map_map]
  have hperm :
      ((sortBy strLe ((df.map key).dedup)).map fun k =>
          (Prod.snd ∘ fun k => (k, ((df.filter fun r => decide (key r = k)).map val).sum)) k).Perm
        (((df.map key).dedup).map fun k =>
          (Prod.snd ∘ fun k => (k, ((df.filter fun r => decide (key r = k)).map val).sum)) k) :=
    (perm_sortBy strLe ((df.map key).dedup)).map _
  rw [hperm.sum_eq]
  have := sum_fiberSums key val df ((df.map key).dedup) (List.nodup_dedup _)
    (fun r hr => List.mem_dedup.mpr (List.mem_map_of_mem key hr))
  simpa using this

theorem getD_set_self :
    ∀ (row : List Value) (i : Nat), i < row.length →
      ∀ v : Value, (row.set i v).getD i Value.null = v := by
  intro row
  induction row with
  | nil => intro i h; simp at h
  | cons a t ih =>
    intro i h v
    cases i with
    | zero => simp
    | succ n => simpa using ih n (by simpa using h) v

theorem getD_set_ne :
    ∀ (row : List Value) (i j : Nat), i ≠ j →
      ∀ v : Value, (row.set i v).getD j Value.null = row.getD j Value.null := by
  intro row
  induction row with
  | nil => intro i j _ v; simp
  | cons a t ih =>
    intro i j hne v
    cases i with
    | zero =>
      cases j with
      | zero => exact absurd rfl hne
      | succ m => simp
    | succ n =>
      cases j with
      | zero => simp
      | succ m => simpa using ih n m (by omega) v

theorem mapCol_cols (f : Frame) (c : String) (g : Value → Value) :
    (mapCol f c g).cols = f.cols := by
  unfold mapCol
  split <;> rfl

theorem length_setCol (i : Nat) (g : Value → Value) (row : List Value) :
    (setCol i g row).length = row.length := by
  simp [setCol]

theorem mapCol_wf (f : Frame) (c : String) (g : Value → Value)
    (h : ∀ r ∈ f.rows, r.length = f.cols.length) :
    ∀ r ∈ (mapCol f c g).rows, r.length = (mapCol f c g).cols.length := by
  intro r hr
  rw [mapCol_cols]
  unfold mapCol at hr
  split at hr
  · rcases List.mem_map.mp hr with ⟨r0, hr0, rfl⟩
    rw [length_setCol]
    exact h r0 hr0
  · exact h r hr

theorem mapCol_rows_length (f : Frame) (c : String) (g : Value → Value) :
    (mapCol f c g).rows.length = f.rows.length := by
  unfold mapCol
  split <;> simp

/-- Distinct column names sit at distinct positions. -/
theorem indexOf_ne_of_mem (cols : List String) (c c2 : String)
    (hc : c ∈ cols) (hc2 : c2 ∈ cols) (hne : c2 ≠ c) :
    cols.indexOf c2 ≠ cols.indexOf c := by
  intro heq
  have h1 : cols.indexOf c < cols.length := List.indexOf_lt_length.mpr hc
  have h2 : cols.indexOf c2 < cols.length := List.indexOf_lt_length.mpr hc2
  have e1 : cols.get ⟨cols.indexOf c, h1⟩ = c := List.indexOf_get h1
  have e2 : cols.get ⟨cols.indexOf c2, h2⟩ = c2 := List.indexOf_get h2
  apply hne
  rw [← e1, ← e2]
  congr 1
  exact Fin.ext heq

/-- A `mapCol` with a cell map whose outputs all satisfy `P` establishes `P`
at every cell of its column (given positionally well-formed rows). -/
theorem mapCol_establishes (f : Frame) (c : String) (g : Value → Value)
    (P : Value → Prop) (hc : c ∈ f.cols)
    (hwf : ∀ r ∈ f.rows, r.length = f.cols.length)
    (hg : ∀ v, P (g v)) :
    ∀ rr ∈ (mapCol f c g).rows, P (getCell f.cols rr c) := by
  intro rr hrr
  unfold mapCol at hrr
  rw [if_pos hc] at hrr
  rcases List.mem_map.mp hrr with ⟨r, hr, rfl⟩
  have hi : f.cols.indexOf c < r.length := by
    rw [hwf r hr]
    exact List.indexOf_lt_length.mpr hc
  unfold getCell setCol
  rw [if_pos hc, getD_set_self r _ hi]
  exact hg _

/-- A `mapCol` on a DIFFERENT column preserves any property of this
column's cells. -/
theorem mapCol_preserves (f : Frame) (c c2 : String) (g : Value → Value)
    (P : Value → Prop) (hne : c2 ≠ c)
    (h : ∀ r ∈ f.rows, P (getCell f.cols r c2)) :
    ∀ rr ∈ (mapCol f c g).rows, P (getCell f.cols rr c2) := by
  intro rr hrr
  unfold mapCol at hrr
  by_cases hc : c ∈ f.cols
  · rw [if_pos hc] at hrr
    rcases List.mem_map.mp hrr with ⟨r, hr, rfl⟩
    by_cases hc2 : c2 ∈ f.cols
    · have hidx : f.cols.indexOf c2 ≠ f.cols.indexOf c :=
        indexOf_ne_of_mem f.cols c c2 hc hc2 hne
      unfold getCell setCol
      rw [if_pos hc2, getD_set_ne r _ _ (Ne.symm hidx)]
      have := h r hr
      unfold getCell at this
      rwa [if_pos hc2] at this
    · unfold getCell
      rw [if_neg hc2]
      have := h r hr
      unfold getCell at this
      rwa [if_neg hc2] at this
  · rw [if_neg hc] at hrr
    exact h rr hrr

theorem mem_dropDupAux [DecidableEq α] :
    ∀ (l seen : List α) (a : α), a ∈ dropDupAux seen l ↔ a ∈ l ∧ a ∉ seen := by
  intro l
  induction l with
  | nil => intro seen a; simp [dropDupAux]
  | cons b t ih =>
    intro seen a
    unfold dropDupAux
    by_cases hb : b ∈ seen
    · rw [if_pos hb, ih]
      constructor
      · rintro ⟨ha, hs⟩
        exact ⟨List.mem_cons_of_mem b ha, hs⟩
      · rintro ⟨ha, hs⟩
        rcases List.mem_cons.mp ha with rfl | ha
        · exact absurd hb hs
        · exact ⟨ha, hs⟩
    · rw [if_neg hb]
      constructor
      · intro ha
        rcases List.mem_cons.mp ha with rfl | ha
        · exact ⟨List.mem_cons_self a t, hb⟩
        · rcases (ih (b :: seen) a).mp ha with ⟨h1, h2⟩
          exact ⟨List.mem_cons_of_mem b h1,
            fun hs => h2 (List.mem_cons_of_mem b hs)⟩
      · rintro ⟨ha, hs⟩
        rcases List.mem_cons.mp ha with rfl | ha
        · exact List.mem_cons_self a _
        · by_cases hab : a = b
          · subst hab
            exact List.mem_cons_self a _
          · exact List.mem_cons_of_mem b ((ih (b :: seen) a).mpr
              ⟨ha, by simp [hab, hs]⟩)

theorem sublist_dropDupAux [DecidableEq α] :
    ∀ l seen : List α, (dropDupAux seen l).Sublist l := by
  intro l
  induction l with
  | nil => intro seen; simp [dropDupAux]
  | cons b t ih =>
    intro seen
    unfold dropDupAux
    by_cases hb : b ∈ seen
    · rw [if_pos hb]
      exact (ih seen).trans (List.sublist_cons_self b t)
    · rw [if_neg hb]
      exact (ih (b :: seen)).cons₂ b

theorem nodup_dropDupAux [DecidableEq α] :
    ∀ l seen : List α, (dropDupAux seen l).Nodup := by
  intro l
  induction l with
  | nil => intro seen; simp [dropDupAux]
  | cons b t ih =>
    intro seen
    unfold dropDupAux
    by_cases hb : b ∈ seen
    · rw [if_pos hb]
      exact ih seen
    · rw [if_neg hb]
      refine List.nodup_cons.mpr ⟨?_, ih (b :: seen)⟩
      intro hmem
      exact ((mem_dropDupAux t (b :: seen) b).mp hmem).2 (List.mem_cons_self b seen)

theorem mem_dropDuplicates [DecidableEq α] (l : List α) (a : α) :
    a ∈ dropDuplicates l ↔ a ∈ l := by
  unfold dropDuplicates
  rw [mem_dropDupAux]
  simp

theorem foldl_min_le (ms : List Nat) :
    ∀ m : Nat, ∀ x ∈ m :: ms, ms.foldl min m ≤ x := by
  induction ms with
  | nil => intro m x hx; simp at hx; simp [hx]
  | cons b t ih =>
    intro m x hx
    simp only [List.foldl_cons]
    have hmin : t.foldl min (min m b) ≤ min m b :=
      ih (min m b) (min m b) (List.mem_cons_self _ _)
    rcases List.mem_cons.mp hx with rfl | hx2
    · exact le_trans hmin (Nat.min_le_left x b)
    · rcases List.mem_cons.mp hx2 with rfl | hx3
      · exact le_trans hmin (Nat.min_le_right m x)
      · exact ih (min m b) x (List.mem_cons_of_mem _ hx3)

theorem le_foldl_max (ms : List Nat) :
    ∀ m : Nat, ∀ x ∈ m :: ms, x ≤ ms.foldl max m := by
  induction ms with
  | nil => intro m x hx; simp at hx; simp [hx]
  | cons b t ih =>
    intro m x hx
    simp only [List.foldl_cons]
    have hmax : max m b ≤ t.foldl max (max m b) :=
      ih (max m b) (max m b) (List.mem_cons_self _ _)
    rcases List.mem_cons.mp hx with rfl | hx2
    · exact le_trans (Nat.le_max_left x b) hmax
    · rcases List.mem_cons.mp hx2 with rfl | hx3
      · exact le_trans (Nat.le_max_right m x) hmax
      · exact ih (max m b) x (List.mem_cons_of_mem _ hx3)

theorem foldl_min_mem (ms : List Nat) : ∀ m : Nat, ms.foldl min m ∈ m :: ms := by
  induction ms with
  | nil => intro m; simp
  | cons b t ih =>
    intro m
    simp only [List.foldl_cons]
    rcases List.mem_cons.mp (ih (min m b)) with h | h
    · rw [h]
      rcases Nat.le_total m b with hle | hle
      · rw [Nat.min_eq_left hle]
        exact List.mem_cons_self _ _
      · rw [Nat.min_eq_right hle]
        exact List.mem_cons_of_mem _ (List.mem_cons_self _ _)
    · exact List.mem_cons_of_mem _ (List.mem_cons_of_mem _ h)

theorem foldl_max_mem (ms : List Nat) : ∀ m : Nat, ms.foldl max m ∈ m :: ms := by
  induction ms with
  | nil => intro m; simp
  | cons b t ih =>
    intro m
    simp only [List.foldl_cons]
    rcases List.mem_cons.mp (ih (max m b)) with h | h
    · rw [h]
      rcases Nat.le_total m b with hle | hle
      · rw [Nat.max_eq_right hle]
        exact List.mem_cons_of_mem _ (List.mem_cons_self _ _)
      · rw [Nat.max_eq_left hle]
        exact List.mem_cons_self _ _
    · exact List.mem_cons_of_mem _ (List.mem_cons_of_mem _ h)

/-- Membership in the filtered dataset: the three categorical memberships,
and nothing else (`selected_state` is not part of the predicate). -/
theorem mem_filtered_df (df : List Row) (sel : Selection) (r : Row) :
    r ∈ filtered_df df sel ↔
      r ∈ df ∧ r.region ∈ sel.regions ∧ r.category ∈ sel.categories
        ∧ r.subCategory ∈ sel.subCategories := by
  simp [filtered_df, List.mem_filter]

/-- A West-region Texas order used in the drill-down checks. -/
def texasRow : Row where
  region := "West"
  category := "Technology"
  subCategory := "Phones"
  state := "Texas"
  customerName := "Ann"
  productName := "Phone"
  orderID := "US-1"
  orderDate := none
  sales := 100
  profit := 10
  discount := 0

/-- A selection whose drill-down state is California but whose categorical
filters match `texasRow`. -/
def caSelection : Selection where
  regions := ["West"]
  categories := ["Technology"]
  subCategories := ["Phones"]
  drilldownState := some ("California")

/-- C1 counterexample: the drill-down state is set to "California", yet the
filtered dataset keeps a row whose State is "Texas": the filter of
src/app.py:67-69 never consults `st.session_state.selected_state`, so the
drill-down conjunct the claim describes is not applied. -/
theorem C1_counterexample :
    caSelection.drilldownState = some ("California")
    ∧ texasRow ∈ filtered_df [texasRow] caSelection
    ∧ texasRow.state ≠ "California" := by
  refine ⟨rfl, ?_, by simp [texasRow]⟩
  simp [filtered_df, texasRow, caSelection]

/-- C1 amended: the drill-down state is never applied by the filter: setting
it changes nothing relative to leaving it unset, and membership in the
filtered dataset is exactly the three-way conjunction of the categorical
filters, whatever `drilldownState` holds. -/
theorem C1_drilldown_never_applied (df : List Row) (sel : Selection)
    (s : String) (r : Row) :
    (r ∈ filtered_df df { sel with drilldownState := some s } ↔
      r ∈ filtered_df df { sel with drilldownState := none })
    ∧ (r ∈ filtered_df df sel ↔
      r ∈ df ∧ r.region ∈ sel.regions ∧ r.category ∈ sel.categories
        ∧ r.subCategory ∈ sel.subCategories) := by
  constructor
  · rw [mem_filtered_df, mem_filtered_df]
  · exact mem_filtered_df df sel r

/-- An East-region Ohio order used in the filter-predicate checks. -/
def ohioRow : Row where
  region := "East"
  category := "Furniture"
  subCategory := "Chairs"
  state := "Ohio"
  customerName := "Bea"
  productName := "Chair"
  orderID := "US-2"
  orderDate := none
  sales := 50
  profit := 5
  discount := 0

/-- A selection whose drill-down state is New York but whose categorical
filters match `ohioRow`. -/
def nySelection : Selection where
  regions := ["East"]
  categories := ["Furniture"]
  subCategories := ["Chairs"]
  drilldownState := some ("New York")

/-- C5 counterexample: by the claim's predicate this row must be dropped
(the drill-down state is set and differs from the row's State), yet the
code retains it: the conjunction src/app.py:67-69 actually evaluates has no
drill-down clause. -/
theorem C5_counterexample :
    ohioRow ∈ filtered_df [ohioRow] nySelection
    ∧ ¬(nySelection.drilldownState = none ∨ ohioRow.state = "New York") := by
  constructor
  · simp [filtered_df, ohioRow, nySelection]
  · simp [nySelection, ohioRow]

/-- C5 amended: the filter output is a subset of its input; a row is
retained iff its Region, Category and Sub-Category are each selected (the
drill-down clause is absent from the code); any empty selected list yields
an empty result rather than meaning all. -/
theorem C5_filter_characterization (df : List Row) (sel : Selection) :
    filtered_df df sel ⊆ df
    ∧ (∀ r, r ∈ filtered_df df sel ↔
        r ∈ df ∧ r.region ∈ sel.regions ∧ r.category ∈ sel.categories
          ∧ r.subCategory ∈ sel.subCategories)
    ∧ (sel.regions = [] → filtered_df df sel = [])
    ∧ (sel.categories = [] → filtered_df df sel = [])
    ∧ (sel.subCategories = [] → filtered_df df sel = []) := by
  refine ⟨(List.filter_sublist df).subset, mem_filtered_df df sel, ?_, ?_, ?_⟩ <;>
    intro h <;>
    refine List.eq_nil_iff_forall_not_mem.mpr fun r hr => ?_ <;>
    rw [mem_filtered_df] at hr <;>
    simp [h] at hr

/-- C6: the profit margin is total profit over total sales times 100 when
total sales is nonzero, and exactly 0 when total sales is 0; being a
rational either way, it is never NaN or infinite. -/
theorem C6_profit_margin_guarded (df : List Row) :
    (total_sales df ≠ 0 →
      profit_margin df = total_profit df / total_sales df * 100)
    ∧ (total_sales df = 0 → profit_margin df = 0) := by
  constructor <;> intro h <;> simp [profit_margin, h]

/-- C9: the total-sales KPI equals the sum of the entries of the per-Region
sales table: both are computed from the same filtered dataset, and the
region groups partition its rows. -/
theorem C9_total_sales_consistency (df : List Row) :
    total_sales df = ((sales_region df).map Prod.snd).sum := by
  unfold total_sales sales_region
  exact (groupSumBy_snd_sum Row.region Row.sales df).symm

/-- C10: the downloadable CSV of the filtered dataset carries the derived
'Discount Bin' column (appended after the original columns, each row
extended with its bin label) exactly when both the Discount and the Profit
column are present; otherwise it holds exactly the original columns and
rows. -/
theorem C10_download_discount_bin (f : Frame) :
    (discountCol ∈ f.cols ∧ profitCol ∈ f.cols →
      (downloadCsv f).1 = f.cols ++ [discountBinCol]
      ∧ (downloadCsv f).2 =
          f.rows.map fun r => r ++ [binValue (getCell f.cols r discountCol)])
    ∧ (¬(discountCol ∈ f.cols ∧ profitCol ∈ f.cols) →
      (downloadCsv f).1 = f.cols ∧ (downloadCsv f).2 = f.rows) := by
  constructor <;> intro h <;>
    simp [downloadCsv, addDiscountBin, h]

/-- C7 counterexample: over the empty filtered dataset the discount-bucket
statistics table is NOT empty: 'Discount Bin' is a categorical column, and
`groupby` keeps every category (`observed=False`), so the table holds five
zero-count rows. -/
theorem C7_counterexample :
    summary_stats [] ≠ [] ∧ (summary_stats []).length = 5 := by
  constructor
  · simp [summary_stats, discountBinLabels]
  · simp [summary_stats, discountBinLabels]

/-- C7 amended: every aggregation over the empty filtered dataset succeeds
with a zero or empty result — zero KPIs, empty top-N, group-sum,
time-series and per-state tables — EXCEPT the discount-bucket statistics
table, which holds one zero-count, all-null row per bin label. -/
theorem C7_empty_aggregations :
    total_sales [] = 0 ∧ total_profit [] = 0 ∧ total_orders [] = 0
    ∧ profit_margin [] = 0
    ∧ top_customers [] = [] ∧ top_products [] = []
    ∧ sales_time [] = [] ∧ sales_region [] = [] ∧ profit_category [] = []
    ∧ sales_state [] = []
    ∧ summary_stats [] = discountBinLabels.map fun lab =>
        { bin := lab, count := 0, mean := none, median := none,
          varSample := none, min := none, max := none } := by
  refine ⟨rfl, rfl, rfl, ?_, rfl, rfl, rfl, rfl, rfl, rfl, ?_⟩
  · simp [profit_margin, total_sales]
  · rfl

/-- An uploaded file that reads successfully, used in the loader check. -/
def myUpload : FileInput where
  name := "my.csv"
  parsed := some { cols := ["Region"], rows := [] }

/-- C4, the failing input evaluated: with the bundled default dataset absent
and a readable uploaded file present, the loader still halts — src/app.py:24
stops the script before the upload widget of line 29 even exists — though
the claim (and the code's own warning message) call for the uploaded file
to be used.  With the default present, an upload does take precedence. -/
theorem C4_default_absent_halts :
    load none (some myUpload)
      = .stopped ("Default dataset not found! Please upload a CSV or Excel file.")
    ∧ (∀ d : FileInput, ∀ ddf : Frame, d.parsed = some ddf →
        load (some d) (some myUpload)
          = .loaded { cols := ["Region"], rows := [] } ("my.csv")) := by
  constructor
  · rfl
  · intro d ddf h
    simp [load, h, myUpload]

/-- The concrete intervals `pd.cut` derives from the edges of
src/app.py:217: left-open, right-closed. -/
theorem discountBin_bins :
    pdCutBins discountBinEdges discountBinLabels =
      [((0, 1/10), "0-10%"), ((1/10, 2/10), "10-20%"),
        ((2/10, 3/10), "20-30%"), ((3/10, 4/10), "30-40%"),
        ((4/10, 1), "40%+")] := by
  norm_num [pdCutBins, discountBinEdges, discountBinLabels]

/-- The discount bin as a chain of right-closed interval tests. -/
theorem discountBin_eq_chain (x : ℚ) :
    discountBin x =
      if 0 < x ∧ x ≤ 1/10 then some ("0-10%")
      else if 1/10 < x ∧ x ≤ 2/10 then some ("10-20%")
      else if 2/10 < x ∧ x ≤ 3/10 then some ("20-30%")
      else if 3/10 < x ∧ x ≤ 4/10 then some ("30-40%")
      else if 4/10 < x ∧ x ≤ 1 then some ("40%+")
      else none := by
  rw [discountBin, pdCut, discountBin_bins]
  simp only [pdCutFind]

/-- C2 counterexample: a Discount of exactly 0.1 is assigned the '0-10%'
label, not '10-20%': `pd.cut` keeps its default `right=True`, so every bin
is right-closed, the opposite of the claim's half-open convention. -/
theorem C2_counterexample :
    discountBin (1/10) = some ("0-10%")
    ∧ discountBin (1/10) ≠ some ("10-20%") := by
  have h : discountBin (1/10) = some ("0-10%") := by
    rw [discountBin_eq_chain]
    rw [if_pos (by norm_num : (0:ℚ) < 1/10 ∧ (1/10 : ℚ) ≤ 1/10)]
  refine ⟨h, ?_⟩
  rw [h]
  simp

/-- C2 amended: `pd.cut` with these edges partitions (0,1] into the five
fixed LEFT-open, right-closed bins (0,0.1], (0.1,0.2], (0.2,0.3],
(0.3,0.4], (0.4,1]; a Discount of exactly 0.1 is assigned the bin labelled
'0-10%', not '10-20%', and a Discount of exactly 0 (or above 1) falls in no
bin at all. -/
theorem C2_bins_right_closed (x : ℚ) :
    (0 < x ∧ x ≤ 1/10 → discountBin x = some ("0-10%"))
    ∧ (1/10 < x ∧ x ≤ 2/10 → discountBin x = some ("10-20%"))
    ∧ (2/10 < x ∧ x ≤ 3/10 → discountBin x = some ("20-30%"))
    ∧ (3/10 < x ∧ x ≤ 4/10 → discountBin x = some ("30-40%"))
    ∧ (4/10 < x ∧ x ≤ 1 → discountBin x = some ("40%+"))
    ∧ (x ≤ 0 ∨ 1 < x → discountBin x = none) := by
  rw [discountBin_eq_chain]
  refine ⟨?_, ?_, ?_, ?_, ?_, ?_⟩
  · intro hin
    rw [if_pos hin]
  · intro hin
    have n1 : ¬(0 < x ∧ x ≤ 1/10) := by rintro ⟨ha, hb⟩; linarith [hin.1]
    rw [if_neg n1, if_pos hin]
  · intro hin
    have n1 : ¬(0 < x ∧ x ≤ 1/10) := by rintro ⟨ha, hb⟩; linarith [hin.1]
    have n2 : ¬(1/10 < x ∧ x ≤ 2/10) := by rintro ⟨ha, hb⟩; linarith [hin.1]
    rw [if_neg n1, if_neg n2, if_pos hin]
  · intro hin
    have n1 : ¬(0 < x ∧ x ≤ 1/10) := by rintro ⟨ha, hb⟩; linarith [hin.1]
    have n2 : ¬(1/10 < x ∧ x ≤ 2/10) := by rintro ⟨ha, hb⟩; linarith [hin.1]
    have n3 : ¬(2/10 < x ∧ x ≤ 3/10) := by rintro ⟨ha, hb⟩; linarith [hin.1]
    rw [if_neg n1, if_neg n2, if_neg n3, if_pos hin]
  · intro hin
    have n1 : ¬(0 < x ∧ x ≤ 1/10) := by rintro ⟨ha, hb⟩; linarith [hin.1]
    have n2 : ¬(1/10 < x ∧ x ≤ 2/10) := by rintro ⟨ha, hb⟩; linarith [hin.1]
    have n3 : ¬(2/10 < x ∧ x ≤ 3/10) := by rintro ⟨ha, hb⟩; linarith [hin.1]
    have n4 : ¬(3/10 < x ∧ x ≤ 4/10) := by rintro ⟨ha, hb⟩; linarith [hin.1]
    rw [if_neg n1, if_neg n2, if_neg n3, if_neg n4, if_pos hin]
  · intro hin
    have n1 : ¬(0 < x ∧ x ≤ 1/10) := by
      rintro ⟨ha, hb⟩; rcases hin with hh | hh <;> linarith
    have n2 : ¬(1/10 < x ∧ x ≤ 2/10) := by
      rintro ⟨ha, hb⟩; rcases hin with hh | hh <;> linarith
    have n3 : ¬(2/10 < x ∧ x ≤ 3/10) := by
      rintro ⟨ha, hb⟩; rcases hin with hh | hh <;> linarith
    have n4 : ¬(3/10 < x ∧ x ≤ 4/10) := by
      rintro ⟨ha, hb⟩; rcases hin with hh | hh <;> linarith
    have n5 : ¬(4/10 < x ∧ x ≤ 1) := by
      rintro ⟨ha, hb⟩; rcases hin with hh | hh <;> linarith
    rw [if_neg n1, if_neg n2, if_neg n3, if_neg n4, if_neg n5]

/-- A January 2020 order (calendar-month index 24240). -/
def janRow : Row where
  region := "East"
  category := "Furniture"
  subCategory := "Chairs"
  state := "Ohio"
  customerName := "Cal"
  productName := "Desk"
  orderID := "US-3"
  orderDate := some (Date.mk 2020 1 15)
  sales := 100
  profit := 10
  discount := 0

/-- A March 2020 order (calendar-month index 24242). -/
def marRow : Row where
  region := "East"
  category := "Furniture"
  subCategory := "Chairs"
  state := "Ohio"
  customerName := "Dee"
  productName := "Lamp"
  orderID := "US-4"
  orderDate := some (Date.mk 2020 3 5)
  sales := 200
  profit := 20
  discount := 0

/-- C3 counterexample: with orders only in January and March 2020, the
monthly series still holds a February 2020 point (month index 24241) with
value 0 — the time `Grouper` of src/app.py:142 bins like `resample` and
zero-fills interior months, so a month with no rows is present with a zero,
not absent as the claim states. -/
theorem C3_counterexample :
    sales_time [janRow, marRow] = [(24240, 100), (24241, 0), (24242, 200)]
    ∧ (∀ r ∈ [janRow, marRow], r.orderDate.map Date.monthIdx ≠ some 24241) := by
  constructor
  · norm_num [sales_time, orderMonths, monthSales, janRow, marRow,
      Date.monthIdx, List.filterMap, List.range, List.range.loop, List.filter]
  · decide

/-- Reduction of the monthly series once the month list is known. -/
theorem sales_time_cons (df : List Row) (a : Nat) (ms : List Nat)
    (h : orderMonths df = a :: ms) :
    sales_time df = (List.range (ms.foldl max a + 1 - ms.foldl min a)).map
      fun i => (ms.foldl min a + i, monthSales df (ms.foldl min a + i)) := by
  unfold sales_time
  rw [h]

/-- The monthly series of a dataset with no non-null Order Date is empty. -/
theorem sales_time_nil (df : List Row) (h : orderMonths df = []) :
    sales_time df = [] := by
  unfold sales_time
  rw [h]

/-- C3 amended: the monthly series holds one (month, summed Sales) point
for EVERY calendar month from the earliest to the latest non-null Order
Date: a month with at least one dated row carries that month's sum, an
interior month with no rows is PRESENT with value 0, a month outside the
span is absent; rows with a null Order Date feed no point, and with no
non-null date at all the series is empty. -/
theorem C3_time_series_span (df : List Row) :
    (∀ r ∈ df, ∀ d : Date, r.orderDate = some d →
      (d.monthIdx, monthSales df d.monthIdx) ∈ sales_time df)
    ∧ (∀ p ∈ sales_time df, p.2 = monthSales df p.1
        ∧ (∃ m1 ∈ orderMonths df, m1 ≤ p.1)
        ∧ (∃ m2 ∈ orderMonths df, p.1 ≤ m2))
    ∧ (∀ m : Nat, (∃ m1 ∈ orderMonths df, m1 ≤ m) →
        (∃ m2 ∈ orderMonths df, m ≤ m2) →
        (m, monthSales df m) ∈ sales_time df)
    ∧ (orderMonths df = [] → sales_time df = []) := by
  have hcore : ∀ m : Nat, (∃ m1 ∈ orderMonths df, m1 ≤ m) →
      (∃ m2 ∈ orderMonths df, m ≤ m2) →
      (m, monthSales df m) ∈ sales_time df := by
    intro m hm1 hm2
    rcases hm1 with ⟨m1, hmem1, hle1⟩
    rcases hm2 with ⟨m2, hmem2, hle2⟩
    rcases hOM : orderMonths df with _ | ⟨a, ms⟩
    · rw [hOM] at hmem1
      exact absurd hmem1 (List.not_mem_nil m1)
    · rw [hOM] at hmem1 hmem2
      rw [sales_time_cons df a ms hOM]
      have hlo : ms.foldl min a ≤ m :=
        le_trans (foldl_min_le ms a m1 hmem1) hle1
      have hhi : m ≤ ms.foldl max a :=
        le_trans hle2 (le_foldl_max ms a m2 hmem2)
      refine List.mem_map.mpr
        ⟨m - ms.foldl min a, List.mem_range.mpr (by omega), ?_⟩
      have he : ms.foldl min a + (m - ms.foldl min a) = m := by omega
      rw [he]
  refine ⟨?_, ?_, hcore, sales_time_nil df⟩
  · intro r hr d hd
    have hmem : d.monthIdx ∈ orderMonths df := by
      unfold orderMonths
      exact List.mem_filterMap.mpr ⟨r, hr, by rw [hd]; rfl⟩
    exact hcore d.monthIdx ⟨d.monthIdx, hmem, le_refl _⟩
      ⟨d.monthIdx, hmem, le_refl _⟩
  · intro p hp
    rcases hOM : orderMonths df with _ | ⟨a, ms⟩
    · rw [sales_time_nil df hOM] at hp
      exact absurd hp (List.not_mem_nil p)
    · rw [sales_time_cons df a ms hOM] at hp
      rcases List.mem_map.mp hp with ⟨i, hi, rfl⟩
      have hirange := List.mem_range.mp hi
      exact ⟨rfl, ⟨ms.foldl min a, foldl_min_mem ms a, by omega⟩,
        ⟨ms.foldl max a, foldl_max_mem ms a, by omega⟩⟩

/-- Every output of the postal fill is non-null. -/
theorem fillnaZero_ne_null (v : Value) : fillnaZero v ≠ Value.null := by
  cases v <;> simp [fillnaZero]

/-- The shape of a cleaned date cell: a parsed date or an explicit null. -/
def DateOrNull : Value → Prop
  | .date _ => True
  | .null => True
  | _ => False

/-- Every output of the coercing day-first parse is a date or a null. -/
theorem dateOrNull_toDatetime (v : Value) : DateOrNull (toDatetimeDayfirst v) := by
  cases v with
  | str s =>
    rcases h : parseDayfirst s with _ | d <;>
      simp [toDatetimeDayfirst, h, DateOrNull]
  | num q => exact trivial
  | date d => exact trivial
  | null => exact trivial

/-- A `mapCol` whose column is absent is a verbatim no-op. -/
theorem mapCol_absent (f : Frame) (c : String) (g : Value → Value)
    (h : c ∉ f.cols) : mapCol f c g = f := by
  unfold mapCol
  rw [if_neg h]

/-- C8: the cleaning contract (src/app.py:45-52): columns unchanged; the
row count never grows; no two cleaned rows are identical across all
columns; the cleaned rows are the step-2 rows in order with later
duplicates removed and every step-2 row still represented; with the postal
column present every cleaned postal cell is non-null; with a date column
present every cleaned date cell is a date or an explicit null (the coercing
parse never raises); and each step is skipped verbatim when its column is
absent. -/
theorem C8_clean_contract (f : Frame)
    (hwf : ∀ r ∈ f.rows, r.length = f.cols.length) :
    (clean f).cols = f.cols
    ∧ (clean f).rows.length ≤ f.rows.length
    ∧ (clean f).rows.Nodup
    ∧ (clean f).rows.Sublist (cleanStep2 f).rows
    ∧ (∀ r ∈ (cleanStep2 f).rows, r ∈ (clean f).rows)
    ∧ (postalCol ∈ f.cols →
        ∀ r ∈ (clean f).rows, getCell f.cols r postalCol ≠ Value.null)
    ∧ (orderDateCol ∈ f.cols →
        ∀ r ∈ (clean f).rows, DateOrNull (getCell f.cols r orderDateCol))
    ∧ (shipDateCol ∈ f.cols →
        ∀ r ∈ (clean f).rows, DateOrNull (getCell f.cols r shipDateCol))
    ∧ (postalCol ∉ f.cols → cleanStep1 f = f)
    ∧ (orderDateCol ∉ f.cols →
        mapCol (cleanStep1 f) orderDateCol toDatetimeDayfirst = cleanStep1 f)
    ∧ (shipDateCol ∉ f.cols →
        cleanStep2 f = mapCol (cleanStep1 f) orderDateCol toDatetimeDayfirst) := by
  have hc1 : (cleanStep1 f).cols = f.cols := mapCol_cols f postalCol fillnaZero
  have hc2a : (mapCol (cleanStep1 f) orderDateCol toDatetimeDayfirst).cols
      = f.cols := by
    rw [mapCol_cols, hc1]
  have hc2 : (cleanStep2 f).cols = f.cols := by
    unfold cleanStep2
    rw [mapCol_cols, hc2a]
  have hwf1 : ∀ r ∈ (cleanStep1 f).rows, r.length = (cleanStep1 f).cols.length :=
    mapCol_wf f postalCol fillnaZero hwf
  have hwf2a : ∀ r ∈ (mapCol (cleanStep1 f) orderDateCol toDatetimeDayfirst).rows,
      r.length = (mapCol (cleanStep1 f) orderDateCol toDatetimeDayfirst).cols.length :=
    mapCol_wf (cleanStep1 f) orderDateCol toDatetimeDayfirst hwf1
  have hmemclean : ∀ r, r ∈ (clean f).rows ↔ r ∈ (cleanStep2 f).rows :=
    fun r => mem_dropDuplicates (cleanStep2 f).rows r
  have hlen2 : (cleanStep2 f).rows.length = f.rows.length := by
    unfold cleanStep2 cleanStep1
    rw [mapCol_rows_length, mapCol_rows_length, mapCol_rows_length]
  have hsub : (clean f).rows.Sublist (cleanStep2 f).rows :=
    sublist_dropDupAux (cleanStep2 f).rows []
  refine ⟨hc2, le_trans hsub.length_le (le_of_eq hlen2),
    nodup_dropDupAux (cleanStep2 f).rows [], hsub,
    fun r hr => (hmemclean r).mpr hr, ?_, ?_, ?_,
    fun h => mapCol_absent f postalCol fillnaZero h,
    fun h => mapCol_absent (cleanStep1 f) orderDateCol toDatetimeDayfirst
      (by rw [hc1]; exact h),
    fun h => mapCol_absent (mapCol (cleanStep1 f) orderDateCol toDatetimeDayfirst)
      shipDateCol toDatetimeDayfirst (by rw [hc2a]; exact h)⟩
  · intro hp r hr
    have s1 : ∀ rr ∈ (cleanStep1 f).rows, getCell f.cols rr postalCol ≠ Value.null :=
      mapCol_establishes f postalCol fillnaZero (fun v => v ≠ Value.null)
        hp hwf fillnaZero_ne_null
    have s2 := mapCol_preserves (cleanStep1 f) orderDateCol postalCol
      toDatetimeDayfirst (fun v => v ≠ Value.null) (by decide)
      (fun rr hrr => by rw [hc1]; exact s1 rr hrr)
    have s3 := mapCol_preserves (mapCol (cleanStep1 f) orderDateCol toDatetimeDayfirst)
      shipDateCol postalCol toDatetimeDayfirst (fun v => v ≠ Value.null) (by decide)
      (fun rr hrr => by rw [hc2a, ← hc1]; exact s2 rr hrr)
    have := s3 r ((hmemclean r).mp hr)
    rwa [hc2a] at this
  · intro hod r hr
    have d1 : ∀ rr ∈ (mapCol (cleanStep1 f) orderDateCol toDatetimeDayfirst).rows,
        DateOrNull (getCell (cleanStep1 f).cols rr orderDateCol) :=
      mapCol_establishes (cleanStep1 f) orderDateCol toDatetimeDayfirst DateOrNull
        (by rw [hc1]; exact hod) hwf1 dateOrNull_toDatetime
    have d2 := mapCol_preserves (mapCol (cleanStep1 f) orderDateCol toDatetimeDayfirst)
      shipDateCol orderDateCol toDatetimeDayfirst DateOrNull (by decide)
      (fun rr hrr => by rw [hc2a, ← hc1]; exact d1 rr hrr)
    have := d2 r ((hmemclean r).mp hr)
    rwa [hc2a] at this
  · intro hsd r hr
    have e1 : ∀ rr ∈ (mapCol (mapCol (cleanStep1 f) orderDateCol toDatetimeDayfirst)
        shipDateCol toDatetimeDayfirst).rows,
        DateOrNull (getCell (mapCol (cleanStep1 f) orderDateCol
          toDatetimeDayfirst).cols rr shipDateCol) :=
      mapCol_establishes (mapCol (cleanStep1 f) orderDateCol toDatetimeDayfirst)
        shipDateCol toDatetimeDayfirst DateOrNull (by rw [hc2a]; exact hsd)
        hwf2a dateOrNull_toDatetime
    have := e1 r ((hmemclean r).mp hr)
    rwa [hc2a] at this

/-- A raw frame with a missing postal code, an unparseable ship date and an
exactly duplicated row. -/
def rawFrame0 : Frame where
  cols := [postalCol, orderDateCol, shipDateCol]
  rows := [[Value.null, Value.str ("15-01-2020"), Value.str ("oops")],
    [Value.null, Value.str ("15-01-2020"), Value.str ("oops")],
    [Value.num 5, Value.str ("20/06/2019"), Value.null]]

/-- C8 witness: the cleaning contract applied at the concrete `rawFrame0`,
whose rows are well-formed by computation. -/
theorem C8_clean_contract_witness :
    (clean rawFrame0).cols = rawFrame0.cols
    ∧ (clean rawFrame0).rows.length ≤ rawFrame0.rows.length
    ∧ (clean rawFrame0).rows.Nodup := by
  have h := C8_clean_contract rawFrame0 (by decide)
  exact ⟨h.1, h.2.1, h.2.2.1⟩

end Superstore
